import Mathlib

/-!
Verification of the `envy` in-memory environment store.

Go strings are modelled as lists of characters (`Str`); Go's `map[string]string`
is modelled as an association list with unique keys (`Envmap`), built and
updated only through `insertKV` / `mapDelete`, exactly as the Go code builds its
maps.  A `*Env` receiver (which may be a nil pointer) is an `Option Env`
(`Store`), and an `Env` whose backing map is nil has `envs = none`.
Fallible operations return `Except String _`, carrying the error message the Go
code produces.  For the aliasing/frame claims a small explicit heap of maps is
used, with stores holding references (indices) into it.
-/

deriving instance DecidableEq for Except

namespace Envy

/-- Go strings, modelled at character granularity. -/
abbrev Str := List Char

/-- Conversion from a Lean string literal to the character-list model. -/
def gs (s : String) : Str := s.data

/-- The white-space test used by Go's `strings.TrimSpace` (`unicode.IsSpace`):
ASCII spaces plus NEL, NBSP and the Unicode space separators. -/
def isGoSpace (c : Char) : Bool :=
  c = ' ' || c = '\t' || c = '\n' || c = '\x0b' || c = '\x0c' || c = '\r' ||
  c.val = 0x85 || c.val = 0xA0 || c.val = 0x1680 ||
  (0x2000 ≤ c.val && c.val ≤ 0x200A) ||
  c.val = 0x2028 || c.val = 0x2029 || c.val = 0x202F || c.val = 0x205F ||
  c.val = 0x3000

/-- `strings.TrimSpace`: drop white space from both ends. -/
def trimSpace (s : Str) : Str :=
  ((s.dropWhile isGoSpace).reverse.dropWhile isGoSpace).reverse

/-- `strings.SplitN(s, "=", 2)`: `none` when `s` has no `'='` (the Go call then
returns a single part), otherwise the pieces before and after the first `'='`. -/
def splitFirstEq : Str → Option (Str × Str)
  | [] => none
  | c :: rest =>
    if c = '=' then some ([], rest)
    else
      match splitFirstEq rest with
      | none => none
      | some kv => some (c :: kv.1, kv.2)

/-- The key well-formedness test `FromMap` applies to each key `k`:
with `s := strings.TrimSpace(k)`, the entry is kept unless `s` is empty,
contains `'='`, or starts with `"//"`. -/
def goodKey (k : Str) : Bool :=
  let s := trimSpace k
  !(s.isEmpty || s.contains '=' || (gs "//").isPrefixOf s)

/-- The model of Go's `map[string]string`: an association list with unique keys. -/
abbrev Envmap := List (Str × Str)

/-- `m[k] = v`: overwrite the value if the key is present, else append. -/
def insertKV : Envmap → Str → Str → Envmap
  | [], k, v => [(k, v)]
  | kv0 :: rest, k, v =>
    if kv0.1 = k then (kv0.1, v) :: rest else kv0 :: insertKV rest k v

/-- Map lookup, `m[k]` as an `Option`. -/
def mapFind : Envmap → Str → Option Str
  | [], _ => none
  | kv0 :: rest, k => if kv0.1 = k then some kv0.2 else mapFind rest k

/-- `delete(m, k)`. -/
def mapDelete (m : Envmap) (k : Str) : Envmap :=
  m.filter (fun kv => decide (kv.1 ≠ k))

/-- The keys of a map. -/
def keysOf (m : Envmap) : List Str := m.map Prod.fst

/-- The `Env` struct: `envs` is the backing map, which may itself be nil.
(The `sync.RWMutex` only serialises access and has no sequential effect.) -/
structure Env where
  envs : Option Envmap
deriving DecidableEq, Repr

/-- A `*Env` value: `none` is the nil pointer. -/
abbrev Store := Option Env

/-- The backing map reachable from a `*Env`, if any. -/
def envsOf : Store → Option Envmap
  | none => none
  | some e => e.envs

/-- `(*Env).IsNil`: the receiver is nil or its backing map is nil. -/
def IsNil (st : Store) : Bool := (envsOf st).isNone

/-- `(*Env).Getenv`: empty string when nil, else the map entry (zero value `""`
for a missing key). -/
def Getenv (st : Store) (key : Str) : Str :=
  match envsOf st with
  | none => []
  | some m => (mapFind m key).getD []

/-- `(*Env).IsSet`: presence test, false when nil. -/
def IsSet (st : Store) (key : Str) : Bool :=
  match envsOf st with
  | none => false
  | some m => (mapFind m key).isSome

/-- `(*Env).Setenv`: error `"nil env"` when nil, else store the pair.
The updated store is returned in place of Go's in-place mutation.
No key well-formedness check is applied here. -/
def Setenv (st : Store) (key value : Str) : Except String Store :=
  match envsOf st with
  | none => .error "nil env"
  | some m => .ok (some ⟨some (insertKV m key value)⟩)

/-- `(*Env).Unsetenv`: error `"nil env"` when nil, else delete the key. -/
def Unsetenv (st : Store) (key : Str) : Except String Store :=
  match envsOf st with
  | none => .error "nil env"
  | some m => .ok (some ⟨some (mapDelete m key)⟩)

/-- One `"KEY=VALUE"` entry string, `k + "=" + v`. -/
def joinKV (kv : Str × Str) : Str := kv.1 ++ '=' :: kv.2

/-- `(*Env).Environ`: empty for nil, else every entry rendered `"k=v"` and
sorted (`sort.Strings`).  Sorting makes the map's iteration order irrelevant. -/
def Environ (st : Store) : List Str :=
  match envsOf st with
  | none => []
  | some m => List.insertionSort (· ≤ ·) (m.map joinKV)

/-- `os.Expand`'s `isShellSpecialVar`. -/
def isShellSpecialVar (c : Char) : Bool :=
  c = '*' || c = '#' || c = '$' || c = '@' || c = '!' || c = '?' ||
  ('0' ≤ c && c ≤ '9')

/-- `os.Expand`'s `isAlphaNum`. -/
def isAlphaNum (c : Char) : Bool :=
  c = '_' || ('a' ≤ c && c ≤ 'z') || ('A' ≤ c && c ≤ 'Z') ||
  ('0' ≤ c && c ≤ '9')

/-- `os.getShellName`, applied to the text following a `'$'`: the referenced
name and the number of characters consumed after the `'$'`. -/
def getShellName (s : Str) : Str × Nat :=
  match s with
  | [] => ([], 0)
  | c :: rest =>
    if c = '\x7b' then
      if (match rest with
          | c1 :: c2 :: _ => isShellSpecialVar c1 && c2 = '\x7d'
          | _ => false) then
        (rest.take 1, 3)
      else
        match rest.findIdx? (fun d => d = '\x7d') with
        | some j => if j = 0 then ([], 2) else (rest.take j, j + 2)
        | none => ([], 1)
    else if isShellSpecialVar c then
      ([c], 1)
    else
      let name := s.takeWhile isAlphaNum
      (name, name.length)

/-- The scanning loop of `os.Expand`: substitute `$name` and `${name}`
occurrences using `mapping`; single pass, no rescanning of substituted text.
The fuel argument (called with the input's length, which bounds the number of
loop steps) only makes the recursion structural; it is never exhausted. -/
def expandAux (mapping : Str → Str) : Nat → Str → Str
  | _, [] => []
  | 0, s => s
  | fuel + 1, c :: rest =>
    if c = '$' then
      if rest.isEmpty then ['$']
      else
        let p := getShellName rest
        if p.1 = [] ∧ p.2 > 0 then expandAux mapping fuel (rest.drop p.2)
        else if p.1 = [] then '$' :: expandAux mapping fuel (rest.drop p.2)
        else mapping p.1 ++ expandAux mapping fuel (rest.drop p.2)
    else c :: expandAux mapping fuel rest

/-- `(*Env).Expandenv`: the input unchanged when nil, else `os.Expand` with the
map lookup (missing keys expand to the empty string). -/
def Expandenv (st : Store) (s : Str) : Str :=
  match envsOf st with
  | none => s
  | some m => expandAux (fun name => (mapFind m name).getD []) s.length s

/-- `FromMap`: a nil map is replaced by an empty one; entries whose key fails
`goodKey` are deleted (the loop deletes them from the map itself); the map is
then used as the backing storage. -/
def FromMap (m : Option Envmap) : Env :=
  ⟨some ((m.getD []).filter (fun kv => goodKey kv.1))⟩

/-- The per-entry body of `FromSlice`'s loop: trim the entry, split on the
first `'='`; entries without `'='` are skipped, others stored (overwriting). -/
def fromSliceStep (em : Envmap) (env : Str) : Envmap :=
  match splitFirstEq (trimSpace env) with
  | none => em
  | some kv => insertKV em kv.1 kv.2

/-- `FromSlice`: fold the loop body over the entries, then `FromMap`. -/
def FromSlice (l : List Str) : Env :=
  FromMap (some (l.foldl fromSliceStep []))

/-- `Zero`: `FromMap` of an empty map. -/
def Zero : Env := FromMap (some [])

/-- The map built by `Merge`'s two copy loops: a fresh map holding the
receiver's entries, then the other store's entries written over them. -/
def mergeMaps (m1 m2 : Envmap) : Envmap :=
  m2.foldl (fun em kv => insertKV em kv.1 kv.2) m1

/-- `(*Env).Merge`: errors when either side is nil, else `FromMap` of the
freshly built combined map. -/
def Merge (st other : Store) : Except String Store :=
  match envsOf st with
  | none => .error "cannot merge into nil env"
  | some m1 =>
    match envsOf other with
    | none => .error "cannot merge from nil env"
    | some m2 => .ok (some (FromMap (some (mergeMaps m1 m2))))

/-- `With`: only the *pointer* is nil-checked; then `fn` is called, its error
returned as-is, and otherwise its result merged into `env`. -/
def With (st : Store) (fn : Unit → Except String Store) : Except String Store :=
  match st with
  | none => .error "nil env"
  | some e =>
    match fn () with
    | .error err => .error err
    | .ok n => Merge (some e) n

/-! ### The byte stream consumed by `FromReader`

`FromReader` works on raw bytes: its `bufio.SplitFunc` splits the stream on the
separator byte and trims each segment.  An `io.Reader` is modelled as the bytes
it yields followed by an optional read failure; `bufio.Scanner` surfaces such a
failure through `Err()`, which `FromReader` checks after scanning, returning
the error regardless of the tokens read. -/

/-- An `io.Reader`: the bytes it delivers, then optionally a read error
(the reader reports its error on the read after delivering its last bytes,
the convention of `strings.Reader`/`bytes.Reader`). -/
structure ByteStream where
  content : List Nat
  readErr : Option String
deriving DecidableEq, Repr

/-- ASCII white space, the single-byte fast path of `bytes.TrimSpace`. -/
def asciiSpaceByte (b : Nat) : Bool :=
  b = 32 || b = 9 || b = 10 || b = 11 || b = 12 || b = 13

/-- Length of the white-space rune at the *front* of a byte segment, after
UTF-8 decoding, or `0`: ASCII spaces, and the UTF-8 encodings of the
multi-byte members of `unicode.IsSpace` (NEL `C2 85`, NBSP `C2 A0`,
`U+1680`, `U+2000`–`U+200A`, `U+2028`, `U+2029`, `U+202F`, `U+205F`,
`U+3000`).  A stray continuation or truncated sequence decodes to
`U+FFFD`, which is not a space, hence `0`. -/
def frontSpaceLen (t : List Nat) : Nat :=
  match t with
  | 0xC2 :: b2 :: _ => if b2 = 0x85 || b2 = 0xA0 then 2 else 0
  | 0xE1 :: 0x9A :: 0x80 :: _ => 3
  | 0xE2 :: 0x80 :: b3 :: _ =>
    if (0x80 ≤ b3 && b3 ≤ 0x8A) || b3 = 0xA8 || b3 = 0xA9 || b3 = 0xAF
    then 3 else 0
  | 0xE2 :: 0x81 :: 0x9F :: _ => 3
  | 0xE3 :: 0x80 :: 0x80 :: _ => 3
  | b :: _ => if asciiSpaceByte b then 1 else 0
  | [] => 0

/-- Length of the white-space rune at the *back* of a segment, given the
segment reversed (mirroring `utf8.DecodeLastRune`, which scans back to the
nearest start byte; all space runes are at most three bytes, so matching the
reversed encodings is exact), or `0`. -/
def backSpaceLen (rt : List Nat) : Nat :=
  match rt with
  | 0x85 :: 0xC2 :: _ => 2
  | 0xA0 :: 0xC2 :: _ => 2
  | 0x80 :: 0x9A :: 0xE1 :: _ => 3
  | 0x9F :: 0x81 :: 0xE2 :: _ => 3
  | 0x80 :: 0x80 :: 0xE3 :: _ => 3
  | b1 :: 0x80 :: 0xE2 :: _ =>
    if (0x80 ≤ b1 && b1 ≤ 0x8A) || b1 = 0xA8 || b1 = 0xA9 || b1 = 0xAF
    then 3 else 0
  | b :: _ => if asciiSpaceByte b then 1 else 0
  | [] => 0

/-- Drop leading space runes (fuel makes the recursion structural; it is
called with the segment's length and never runs out). -/
def trimBytesFrontAux : Nat → List Nat → List Nat
  | 0, t => t
  | fuel + 1, t =>
    if frontSpaceLen t = 0 then t
    else trimBytesFrontAux fuel (t.drop (frontSpaceLen t))

/-- Drop trailing space runes of a reversed segment. -/
def trimBytesBackAux : Nat → List Nat → List Nat
  | 0, rt => rt
  | fuel + 1, rt =>
    if backSpaceLen rt = 0 then rt
    else trimBytesBackAux fuel (rt.drop (backSpaceLen rt))

/-- `bytes.TrimSpace` on a segment: strip `unicode.IsSpace` runes (decoded
from UTF-8) from both ends; invalid sequences are not spaces and stop the
trimming, as in Go. -/
def trimBytes (t : List Nat) : List Nat :=
  let f := trimBytesFrontAux t.length t
  (trimBytesBackAux f.reverse.length f.reverse).reverse

/-- The scan loop with `FromReader`'s split function: cut a trimmed token at
every separator byte, and flush the trailing data (trimmed) at end of stream. -/
def tokenizeAux (sep : Nat) (acc : List Nat) : List Nat → List (List Nat)
  | [] => if acc.isEmpty then [] else [trimBytes acc]
  | b :: rest =>
    if b = sep then trimBytes acc :: tokenizeAux sep [] rest
    else tokenizeAux sep (acc ++ [b]) rest

/-- All tokens scanned from a stream's content. -/
def tokenize (sep : Nat) (data : List Nat) : List (List Nat) :=
  tokenizeAux sep [] data

/-- The replacement character `U+FFFD`, Go's `utf8.RuneError`. -/
def runeError : Char := Char.ofNat 0xFFFD

/-- A UTF-8 continuation byte. -/
def contByte (b : Nat) : Bool := 0x80 ≤ b && b ≤ 0xBF

/-- UTF-8 decoding with `utf8.DecodeRune`'s error handling: an invalid,
overlong, surrogate or truncated sequence consumes one byte and yields
`U+FFFD`.  The fuel (the input length, one step consumes at least one byte)
only makes the recursion structural. -/
def utf8DecodeAux : Nat → List Nat → Str
  | 0, _ => []
  | _, [] => []
  | fuel + 1, b1 :: t1 =>
    if b1 < 0x80 then Char.ofNat b1 :: utf8DecodeAux fuel t1
    else if 0xC2 ≤ b1 && b1 ≤ 0xDF then
      match t1 with
      | b2 :: t2 =>
        if contByte b2 then
          Char.ofNat ((b1 - 0xC0) * 64 + (b2 - 0x80)) :: utf8DecodeAux fuel t2
        else runeError :: utf8DecodeAux fuel t1
      | [] => runeError :: utf8DecodeAux fuel t1
    else if 0xE0 ≤ b1 && b1 ≤ 0xEF then
      match t1 with
      | b2 :: b3 :: t3 =>
        if (if b1 = 0xE0 then 0xA0 ≤ b2 && b2 ≤ 0xBF
            else if b1 = 0xED then 0x80 ≤ b2 && b2 ≤ 0x9F
            else contByte b2) && contByte b3 then
          Char.ofNat ((b1 - 0xE0) * 4096 + (b2 - 0x80) * 64 + (b3 - 0x80))
            :: utf8DecodeAux fuel t3
        else runeError :: utf8DecodeAux fuel t1
      | _ => runeError :: utf8DecodeAux fuel t1
    else if 0xF0 ≤ b1 && b1 ≤ 0xF4 then
      match t1 with
      | b2 :: b3 :: b4 :: t4 =>
        if (if b1 = 0xF0 then 0x90 ≤ b2 && b2 ≤ 0xBF
            else if b1 = 0xF4 then 0x80 ≤ b2 && b2 ≤ 0x8F
            else contByte b2) && contByte b3 && contByte b4 then
          Char.ofNat ((b1 - 0xF0) * 262144 + (b2 - 0x80) * 4096
              + (b3 - 0x80) * 64 + (b4 - 0x80))
            :: utf8DecodeAux fuel t4
        else runeError :: utf8DecodeAux fuel t1
      | _ => runeError :: utf8DecodeAux fuel t1
    else runeError :: utf8DecodeAux fuel t1

/-- `buf.Text()` as seen by the rune-level operations downstream
(`strings.TrimSpace` and the space/`'='`/`"//"` tests): the token's bytes
UTF-8-decoded, invalid bytes becoming `U+FFFD` exactly as `utf8.DecodeRune`
reports them.  (Go keeps the raw bytes in the string; after this decoding the
model no longer distinguishes two invalid sequences of the same shape, which
none of the verified properties inspect.) -/
def decodeBytes (t : List Nat) : Str := utf8DecodeAux t.length t

/-- Bytes of an ASCII string, for writing concrete streams. -/
def bytesOf (s : String) : List Nat := s.data.map Char.toNat

/-- `bufio.MaxScanTokenSize`, the default scanner's buffer cap. -/
def maxScanTokenSize : Nat := 65536

/-- The longest separator-free byte run tracking of the scanner's buffer:
`cur` is the current run, `best` the longest finished one. -/
def maxRunAux (sep : Nat) : Nat → Nat → List Nat → Nat
  | cur, best, [] => max cur best
  | cur, best, b :: rest =>
    if b = sep then maxRunAux sep 0 (max cur best) rest
    else maxRunAux sep (cur + 1) best rest

/-- The longest run of bytes without the separator anywhere in the content.
The default `bufio.Scanner` buffers at most `maxScanTokenSize` bytes; with
`FromReader`'s split function the unconsumed bytes are exactly a
separator-free run, so scanning fails with `bufio.ErrTooLong` exactly when
such a run reaches `maxScanTokenSize` bytes. -/
def maxSepFreeRun (sep : Nat) (data : List Nat) : Nat :=
  maxRunAux sep 0 0 data

/-- `FromReader`: error `"nil reader"` for a nil reader.  Scanning stops with
`bufio.ErrTooLong` (`"bufio.Scanner: token too long"`) when a separator-free
run reaches the scanner's 64 KiB buffer cap — this is hit while the content
streams in, before the reader's own error point.  Otherwise a read failure
reported by the scanner is returned as the error (any tokens already scanned
are discarded); otherwise the tokens feed `FromSlice`.  Content bytes are
never validated: malformed sequences just flow through the filtering. -/
def FromReader (r : Option ByteStream) (sep : Nat) : Except String Env :=
  match r with
  | none => .error "nil reader"
  | some s =>
    if maxScanTokenSize ≤ maxSepFreeRun sep s.content then
      .error "bufio.Scanner: token too long"
    else
      match s.readErr with
      | some e => .error e
      | none => .ok (FromSlice ((tokenize sep s.content).map decodeBytes))

/-! ### Heap model

For the claims about mutation and aliasing (`Merge` owning fresh storage,
`FromMap` deleting from the caller's map in place) the backing maps live in an
explicit heap: a list of maps addressed by index.  An `Env` holds a reference
to its backing map (`none` for the nil map), mirroring Go's map references. -/

/-- The allocated maps; a reference is an index into this list. -/
abbrev Heap := List Envmap

/-- Dereference: the map at `r`, if allocated. -/
def hget (h : Heap) (r : Nat) : Option Envmap := h[r]?

/-- An `Env` whose `envs` field is a map reference (or the nil map). -/
structure EnvH where
  envs : Option Nat
deriving DecidableEq, Repr

/-- A `*Env` in the heap model. -/
abbrev StoreH := Option EnvH

/-- The map reference reachable from a `*Env`, if any. -/
def refOf : StoreH → Option Nat
  | none => none
  | some e => e.envs

/-- `Setenv` in the heap model: write through the store's map reference. -/
def SetenvH (h : Heap) (st : StoreH) (key value : Str) :
    Heap × Except String Unit :=
  match refOf st with
  | none => (h, .error "nil env")
  | some r => (h.set r (insertKV ((hget h r).getD []) key value), .ok ())

/-- `FromMap` in the heap model: a nil map is replaced by a fresh empty
allocation; otherwise rule-violating entries are deleted from the caller's map
*in place* and the returned `Env` references that same map. -/
def FromMapH (h : Heap) (r : Option Nat) : Heap × EnvH :=
  match r with
  | none => (h ++ [[]], ⟨some h.length⟩)
  | some r =>
    (h.set r (((hget h r).getD []).filter (fun kv => goodKey kv.1)), ⟨some r⟩)

/-- `Merge` in the heap model: read both maps, build the combined map in a
fresh allocation (`em := map[string]string{...}`), and hand that allocation to
`FromMap`. -/
def MergeH (h : Heap) (a b : StoreH) : Heap × Except String EnvH :=
  match refOf a with
  | none => (h, .error "cannot merge into nil env")
  | some ra =>
    match refOf b with
    | none => (h, .error "cannot merge from nil env")
    | some rb =>
      let em := mergeMaps ((hget h ra).getD []) ((hget h rb).getD [])
      let p := FromMapH (h ++ [em]) (some h.length)
      (p.1, .ok p.2)

/-! ### Basic facts -/

theorem isNil_eq_true_iff (st : Store) : IsNil st = true ↔ envsOf st = none := by
  simp [IsNil, Option.isNone_iff_eq_none]

/-- The entries of an `Env` (empty for a nil backing map). -/
def envList (e : Env) : Envmap := e.envs.getD []

/-- The entries reachable from a `*Env`. -/
def storeList (st : Store) : Envmap := (envsOf st).getD []

theorem mapFind_insertKV (m : Envmap) (k v k' : Str) :
    mapFind (insertKV m k v) k' = if k = k' then some v else mapFind m k' := by
  induction m with
  | nil => by_cases h : k = k' <;> simp [insertKV, mapFind, h]
  | cons kv0 rest ih =>
    obtain ⟨k0, v0⟩ := kv0
    by_cases h0 : k0 = k <;> by_cases h1 : k0 = k' <;> by_cases h2 : k = k' <;>
      simp_all [insertKV, mapFind]

theorem mapFind_eq_none_of_all_ne (m : Envmap) (k : Str)
    (h : ∀ kv ∈ m, kv.1 ≠ k) : mapFind m k = none := by
  induction m with
  | nil => rfl
  | cons kv0 rest ih =>
    have h0 := h kv0 (List.mem_cons_self _ _)
    simp only [mapFind, if_neg h0]
    exact ih fun kv hkv => h kv (List.mem_cons_of_mem _ hkv)

theorem insertKV_of_find_none (m : Envmap) (k v : Str)
    (h : mapFind m k = none) : insertKV m k v = m ++ [(k, v)] := by
  induction m with
  | nil => rfl
  | cons kv0 rest ih =>
    have h0 : kv0.1 ≠ k := by
      intro hc
      simp [mapFind, hc] at h
    simp only [mapFind, if_neg h0] at h
    simp [insertKV, if_neg h0, ih h]

theorem mem_insertKV (m : Envmap) (k v : Str) (kv' : Str × Str)
    (h : kv' ∈ insertKV m k v) : kv' ∈ m ∨ kv'.1 = k := by
  induction m with
  | nil =>
    simp only [insertKV, List.mem_singleton] at h
    exact Or.inr (by rw [h])
  | cons kv0 rest ih =>
    by_cases h0 : kv0.1 = k
    · simp only [insertKV, if_pos h0, List.mem_cons] at h
      rcases h with h | h
      · exact Or.inr (by rw [h, h0])
      · exact Or.inl (List.mem_cons_of_mem _ h)
    · simp only [insertKV, if_neg h0, List.mem_cons] at h
      rcases h with h | h
      · exact Or.inl (by rw [h]; exact List.mem_cons_self _ _)
      · rcases ih h with h' | h'
        · exact Or.inl (List.mem_cons_of_mem _ h')
        · exact Or.inr h'

theorem mapFind_append (m1 m2 : Envmap) (k : Str) :
    mapFind (m1 ++ m2) k =
      match mapFind m1 k with
      | some v => some v
      | none => mapFind m2 k := by
  induction m1 with
  | nil => simp [mapFind]
  | cons kv0 rest ih =>
    by_cases h0 : kv0.1 = k <;> simp [mapFind, h0, ih]

theorem mapFind_reverse (m : Envmap)
    (h : m.Pairwise (fun a b => a.1 ≠ b.1)) (k : Str) :
    mapFind m.reverse k = mapFind m k := by
  induction m with
  | nil => rfl
  | cons kv0 rest ih =>
    have hne := (List.pairwise_cons.mp h).1
    have hrest := (List.pairwise_cons.mp h).2
    rw [List.reverse_cons, mapFind_append, ih hrest]
    by_cases h0 : kv0.1 = k
    · have : mapFind rest k = none :=
        mapFind_eq_none_of_all_ne rest k fun kv hkv hc =>
          (hne kv hkv) (h0.trans hc.symm)
      simp [mapFind, this, h0]
    · cases hf : mapFind rest k <;> simp [mapFind, h0, hf]

/-! ### C1 -/

/-- C1: for every null/absent store (nil pointer or nil backing map), `Getenv`
returns the empty string, `IsSet` is false, `Environ` is empty, `Expandenv`
returns its input unmodified, and `Setenv`/`Unsetenv` fail with the
nil-environment error. -/
theorem c1_nil_store_reads_empty_writes_fail (st : Store) (h : IsNil st = true) :
    (∀ k, Getenv st k = []) ∧ (∀ k, IsSet st k = false) ∧ Environ st = [] ∧
    (∀ s, Expandenv st s = s) ∧ (∀ k v, Setenv st k v = .error "nil env") ∧
    (∀ k, Unsetenv st k = .error "nil env") := by
  have h' : envsOf st = none := (isNil_eq_true_iff st).mp h
  exact ⟨fun k => by simp [Getenv, h'], fun k => by simp [IsSet, h'],
    by simp [Environ, h'], fun s => by simp [Expandenv, h'],
    fun k v => by simp [Setenv, h'], fun k => by simp [Unsetenv, h']⟩

/-- Witness for C1, covering both nil shapes on concrete inputs. -/
theorem c1_witness :
    Getenv none (gs "KEY") = [] ∧ IsSet none (gs "KEY") = false ∧
    Environ none = [] ∧
    Expandenv (some ⟨none⟩) (gs "Value is $KEY") = gs "Value is $KEY" ∧
    Setenv (some ⟨none⟩) (gs "KEY") (gs "V") = .error "nil env" ∧
    Unsetenv none (gs "KEY") = .error "nil env" := by
  have h1 := c1_nil_store_reads_empty_writes_fail none rfl
  have h2 := c1_nil_store_reads_empty_writes_fail (some ⟨none⟩) rfl
  exact ⟨h1.1 _, h1.2.1 _, h1.2.2.1, h2.2.2.2.1 _, h2.2.2.2.2.1 _ _,
    h1.2.2.2.2.2 _⟩

/-! ### C2 -/

theorem filter_insertKV_pos (m : Envmap) (k v : Str) (hk : goodKey k = true) :
    (insertKV m k v).filter (fun kv => goodKey kv.1)
      = insertKV (m.filter (fun kv => goodKey kv.1)) k v := by
  induction m with
  | nil => simp [insertKV, List.filter, hk]
  | cons kv0 rest ih =>
    by_cases h0 : kv0.1 = k
    · have hg0 : goodKey kv0.1 = true := by rw [h0]; exact hk
      simp [insertKV, h0, List.filter, hg0, hk]
    · by_cases hg0 : goodKey kv0.1 = true
      · simp [insertKV, h0, List.filter, hg0, ih]
      · simp only [Bool.not_eq_true] at hg0
        simp [insertKV, h0, List.filter, hg0, ih]

theorem filter_insertKV_neg (m : Envmap) (k v : Str) (hk : goodKey k = false) :
    (insertKV m k v).filter (fun kv => goodKey kv.1)
      = m.filter (fun kv => goodKey kv.1) := by
  induction m with
  | nil => simp [insertKV, List.filter, hk]
  | cons kv0 rest ih =>
    by_cases h0 : kv0.1 = k
    · have hg0 : goodKey kv0.1 = false := by rw [h0]; exact hk
      simp [insertKV, h0, List.filter, hg0, hk]
    · by_cases hg0 : goodKey kv0.1 = true
      · simp [insertKV, h0, List.filter, hg0, ih]
      · simp only [Bool.not_eq_true] at hg0
        simp [insertKV, h0, List.filter, hg0, ih]

/-- Modelled from the spec (the construction rule quoted by C2): each entry is
trimmed of surrounding whitespace and split at its first `'='`; it is kept
only when a separator exists and the key passes the well-formedness rule
(non-empty after trim, no `'='`, not starting `"//"`); later duplicate keys
overwrite earlier ones. -/
def specStep (em : Envmap) (e : Str) : Envmap :=
  match splitFirstEq (trimSpace e) with
  | none => em
  | some kv => if goodKey kv.1 then insertKV em kv.1 kv.2 else em

/-- The mapping described by the spec's per-entry rule, for a whole slice. -/
def fromSliceRef (l : List Str) : Envmap := l.foldl specStep []

theorem filter_foldl_fromSliceStep (l : List Str) (m : Envmap) :
    (l.foldl fromSliceStep m).filter (fun kv => goodKey kv.1)
      = l.foldl specStep (m.filter (fun kv => goodKey kv.1)) := by
  induction l generalizing m with
  | nil => rfl
  | cons e rest ih =>
    simp only [List.foldl_cons]
    rw [ih]
    congr 1
    show (fromSliceStep m e).filter (fun kv => goodKey kv.1)
      = specStep (m.filter (fun kv => goodKey kv.1)) e
    unfold fromSliceStep specStep
    cases hsp : splitFirstEq (trimSpace e) with
    | none => rfl
    | some kv =>
      show List.filter (fun kv => goodKey kv.1) (insertKV m kv.1 kv.2)
        = if goodKey kv.1 = true
            then insertKV (List.filter (fun kv => goodKey kv.1) m) kv.1 kv.2
            else List.filter (fun kv => goodKey kv.1) m
      by_cases hg : goodKey kv.1 = true
      · rw [if_pos hg]
        exact filter_insertKV_pos m kv.1 kv.2 hg
      · simp only [Bool.not_eq_true] at hg
        rw [hg]
        simp only [Bool.false_eq_true, if_false]
        exact filter_insertKV_neg m kv.1 kv.2 hg

theorem fromSlice_envs (l : List Str) :
    (FromSlice l).envs = some (fromSliceRef l) := by
  show some _ = some _
  rw [Option.some.injEq]
  have h := filter_foldl_fromSliceStep l []
  simpa [fromSliceRef] using h

/-- C2: `FromSlice` realises exactly the spec's per-entry rule — each entry is
trimmed, split on its first `'='` only (so values keep further `'='`
characters, e.g. `"K=V=W"` maps `K` to `V=W`), entries with no separator or a
rule-violating key are silently dropped, and later duplicate keys overwrite
earlier ones. -/
theorem c2_fromslice_refines_spec_rule (l : List Str) :
    (FromSlice l).envs = some (fromSliceRef l) ∧
    Getenv (some (FromSlice [gs "K=V=W"])) (gs "K") = gs "V=W" ∧
    (FromSlice [gs "A=1", gs "NOSEP", gs " =x", gs "//C=y", gs "A=2"]).envs
      = some [(gs "A", gs "2")] :=
  ⟨fromSlice_envs l, by decide, by decide⟩

/-! ### C9 -/

theorem mem_envList_fromMap (m : Envmap) (kv : Str × Str) :
    kv ∈ envList (FromMap (some m)) ↔ kv ∈ m ∧ goodKey kv.1 = true := by
  simp [FromMap, envList, List.mem_filter]

/-- C9 counterexample: `FromMap` keeps a surviving key verbatim — the key
`" K "` (well-formed after trimming) is stored *untrimmed*, so the resulting
store does carry a key with surrounding whitespace, and `Environ` shows it. -/
theorem c9_counterexample :
    (FromMap (some [(gs " K ", gs "v")])).envs = some [(gs " K ", gs "v")] ∧
    Environ (some (FromMap (some [(gs " K ", gs "v")]))) = [gs " K =v"] ∧
    trimSpace (gs " K ") ≠ gs " K " := by
  decide

/-- C9 as amended: `FromMap` trims each candidate key only to *test* the
well-formedness rule; an entry is kept exactly when its trimmed key is
non-empty, `'='`-free and not starting `"//"`, and kept entries retain their
original (untrimmed) keys. -/
theorem c9_frommap_amended (m : Envmap) (kv : Str × Str) :
    kv ∈ envList (FromMap (some m)) ↔ kv ∈ m ∧ goodKey kv.1 = true :=
  mem_envList_fromMap m kv

/-! ### C6 -/

/-- C6 counterexample: `Setenv` applies no key validation — on a store built
by a constructor it happily stores the rule-violating key `"="`, so the
well-formedness invariant is not preserved by every public operation. -/
theorem c6_counterexample :
    Setenv (some Zero) (gs "=") (gs "v")
      = .ok (some ⟨some [(gs "=", gs "v")]⟩) ∧
    goodKey (gs "=") = false := by
  decide

/-- C6 as amended: every key stored by the constructors (`FromSlice`,
`FromMap`, and `Zero` through them) satisfies the well-formedness rule, and
the rule is preserved by `Unsetenv` and by `Merge` (whose output is filtered
again) — but not by `Setenv`, which performs no validation. -/
theorem c6_key_invariant_amended (l : List Str) (mo : Option Envmap)
    (m : Envmap) (k : Str) (a b st₁ st₂ : Store) (kv₁ kv₂ kv₃ kv₄ : Str × Str)
    (hwf : ∀ kv ∈ m, goodKey kv.1 = true)
    (hu : Unsetenv (some ⟨some m⟩) k = .ok st₁)
    (hmg : Merge a b = .ok st₂)
    (h1 : kv₁ ∈ envList (FromSlice l)) (h2 : kv₂ ∈ envList (FromMap mo))
    (h3 : kv₃ ∈ storeList st₁) (h4 : kv₄ ∈ storeList st₂) :
    goodKey kv₁.1 = true ∧ goodKey kv₂.1 = true ∧
    goodKey kv₃.1 = true ∧ goodKey kv₄.1 = true := by
  refine ⟨?_, ?_, ?_, ?_⟩
  · have : kv₁ ∈ envList (FromMap (some (l.foldl fromSliceStep []))) := h1
    rw [mem_envList_fromMap] at this
    exact this.2
  · cases mo with
    | none =>
      simp [FromMap, envList] at h2
    | some m' =>
      rw [mem_envList_fromMap] at h2
      exact h2.2
  · have hst : st₁ = some ⟨some (mapDelete m k)⟩ := by
      simpa [Unsetenv, envsOf] using hu.symm
    rw [hst] at h3
    simp only [storeList, envsOf, Option.getD_some] at h3
    exact hwf kv₃ (List.mem_of_mem_filter h3)
  · cases a with
    | none => simp [Merge, envsOf] at hmg
    | some ea =>
      cases hea : ea.envs with
      | none => simp [Merge, envsOf, hea] at hmg
      | some m1 =>
        cases b with
        | none => simp [Merge, envsOf, hea] at hmg
        | some eb =>
          cases heb : eb.envs with
          | none => simp [Merge, envsOf, hea, heb] at hmg
          | some m2 =>
            have hst : st₂ = some (FromMap (some (mergeMaps m1 m2))) := by
              simpa [Merge, envsOf, hea, heb] using hmg.symm
            rw [hst] at h4
            have : kv₄ ∈ envList (FromMap (some (mergeMaps m1 m2))) := h4
            rw [mem_envList_fromMap] at this
            exact this.2

/-- Witness for C6's amended statement: concrete constructor outputs, an
`Unsetenv` result and a `Merge` result, all with well-formed keys. -/
theorem c6_key_invariant_amended_witness :
    goodKey (gs "A") = true ∧ goodKey (gs "B") = true ∧
    goodKey (gs "C") = true ∧ goodKey (gs "D") = true :=
  c6_key_invariant_amended [gs "A=1"] (some [(gs "B", gs "2")])
    [(gs "C", gs "3")] (gs "X")
    (some ⟨some [(gs "D", gs "4")]⟩) (some Zero)
    (some ⟨some [(gs "C", gs "3")]⟩) (some ⟨some [(gs "D", gs "4")]⟩)
    (gs "A", gs "1") (gs "B", gs "2") (gs "C", gs "3") (gs "D", gs "4")
    (by decide) (by decide) (by decide) (by decide) (by decide) (by decide)
    (by decide)

/-! ### C3 -/

theorem mapFind_foldl_insertKV (l m : Envmap) (k : Str) :
    mapFind (l.foldl (fun em kv => insertKV em kv.1 kv.2) m) k
      = match mapFind l.reverse k with
        | some v => some v
        | none => mapFind m k := by
  induction l generalizing m with
  | nil => simp [mapFind]
  | cons kv0 rest ih =>
    simp only [List.foldl_cons, List.reverse_cons]
    rw [ih, mapFind_append]
    cases hf : mapFind rest.reverse k with
    | some v => rfl
    | none =>
      rw [mapFind_insertKV]
      by_cases h0 : kv0.1 = k <;> simp [mapFind, h0]

theorem mem_foldl_insertKV (l m : Envmap) (kv' : Str × Str)
    (h : kv' ∈ l.foldl (fun em kv => insertKV em kv.1 kv.2) m) :
    kv' ∈ m ∨ kv'.1 ∈ l.map Prod.fst := by
  induction l generalizing m with
  | nil => exact Or.inl h
  | cons kv0 rest ih =>
    rcases ih (insertKV m kv0.1 kv0.2) h with h' | h'
    · rcases mem_insertKV _ _ _ _ h' with h'' | h''
      · exact Or.inl h''
      · exact Or.inr (by simp [h''])
    · exact Or.inr (by simp [h'])

theorem merge_of_good (m1 m2 : Envmap)
    (h1 : ∀ kv ∈ m1, goodKey kv.1 = true)
    (h2 : ∀ kv ∈ m2, goodKey kv.1 = true) :
    Merge (some ⟨some m1⟩) (some ⟨some m2⟩)
      = .ok (some ⟨some (mergeMaps m1 m2)⟩) := by
  have hall : ∀ kv ∈ mergeMaps m1 m2, goodKey kv.1 = true := by
    intro kv hkv
    rcases mem_foldl_insertKV m2 m1 kv hkv with h | h
    · exact h1 kv h
    · rcases List.mem_map.mp h with ⟨kv2, hkv2, he⟩
      have := h2 kv2 hkv2
      rwa [he] at this
  show Except.ok (some (FromMap (some (mergeMaps m1 m2)))) = _
  rw [show FromMap (some (mergeMaps m1 m2)) = ⟨some (mergeMaps m1 m2)⟩ from by
    simp [FromMap, List.filter_eq_self.mpr hall]]

/-- C3 counterexample: a valid (non-null) store may hold a rule-violating key
(put there by `Setenv`, which does not validate); `Merge` then silently drops
that entry instead of keeping the base's value, because its result passes
through `FromMap`'s filter. -/
theorem c3_counterexample :
    Setenv (some Zero) (gs "=") (gs "x")
      = .ok (some ⟨some [(gs "=", gs "x")]⟩) ∧
    Getenv (some ⟨some [(gs "=", gs "x")]⟩) (gs "=") = gs "x" ∧
    Merge (some ⟨some [(gs "=", gs "x")]⟩) (some Zero)
      = .ok (some ⟨some []⟩) ∧
    Getenv (some ⟨some []⟩) (gs "=") = [] ∧ gs "x" ≠ [] := by
  decide

/-- C3 as amended: for valid stores all of whose keys satisfy the
construction-time well-formedness rule (as every constructor-built store
does — the exception is only keys injected by `Setenv`), `Merge` succeeds,
and on the result a key found in the overlay has the overlay's value while
any other key has the base's value (present in neither means absent). -/
theorem c3_merge_amended (m1 m2 : Envmap) (k : Str)
    (h1 : ∀ kv ∈ m1, goodKey kv.1 = true)
    (h2 : ∀ kv ∈ m2, goodKey kv.1 = true)
    (hnd : m2.Pairwise (fun a b => a.1 ≠ b.1)) :
    Merge (some ⟨some m1⟩) (some ⟨some m2⟩)
      = .ok (some ⟨some (mergeMaps m1 m2)⟩) ∧
    mapFind (mergeMaps m1 m2) k
      = match mapFind m2 k with
        | some v => some v
        | none => mapFind m1 k := by
  refine ⟨merge_of_good m1 m2 h1 h2, ?_⟩
  show mapFind (m2.foldl (fun em kv => insertKV em kv.1 kv.2) m1) k = _
  rw [mapFind_foldl_insertKV, mapFind_reverse m2 hnd]

/-- Witness for C3's amended statement, at the spec's own override example:
base `{A:1, B:2}`, overlay `{B:9, C:3}`, queried at the colliding key `B`. -/
theorem c3_merge_amended_witness :
    Merge (some ⟨some [(gs "A", gs "1"), (gs "B", gs "2")]⟩)
        (some ⟨some [(gs "B", gs "9"), (gs "C", gs "3")]⟩)
      = .ok (some ⟨some (mergeMaps [(gs "A", gs "1"), (gs "B", gs "2")]
          [(gs "B", gs "9"), (gs "C", gs "3")])⟩) ∧
    mapFind (mergeMaps [(gs "A", gs "1"), (gs "B", gs "2")]
        [(gs "B", gs "9"), (gs "C", gs "3")]) (gs "B")
      = match mapFind [(gs "B", gs "9"), (gs "C", gs "3")] (gs "B") with
        | some v => some v
        | none => mapFind [(gs "A", gs "1"), (gs "B", gs "2")] (gs "B") :=
  c3_merge_amended [(gs "A", gs "1"), (gs "B", gs "2")]
    [(gs "B", gs "9"), (gs "C", gs "3")] (gs "B")
    (by decide) (by decide) (by decide)

/-! ### C4 -/

theorem splitFirstEq_join (s k v : Str) (h : splitFirstEq s = some (k, v)) :
    k ++ '=' :: v = s := by
  induction s generalizing k v with
  | nil => simp [splitFirstEq] at h
  | cons c rest ih =>
    by_cases hc : c = '='
    · rw [show splitFirstEq (c :: rest) = some ([], rest) from by
        simp [splitFirstEq, hc]] at h
      obtain ⟨hk, hv⟩ := Prod.mk.injEq .. ▸ Option.some.injEq .. ▸ h
      rw [← hk, ← hv, hc]
      rfl
    · simp only [splitFirstEq, if_neg hc] at h
      cases hsp : splitFirstEq rest with
      | none => rw [hsp] at h; simp at h
      | some kv =>
        obtain ⟨k', v'⟩ := kv
        rw [hsp] at h
        simp only [Option.some.injEq, Prod.mk.injEq] at h
        obtain ⟨hk, hv⟩ := h
        rw [← hk, ← hv]
        have := ih k' v' hsp
        simp [this]

/-- The key/value pair an entry denotes (meaningful when the entry splits). -/
def entryPair (s : Str) : Str × Str := (splitFirstEq (trimSpace s)).getD ([], [])

/-- The entries a well-formed slice feeds into the store: trimmed, splitting,
well-formed key. -/
def goodEntry (s : Str) : Prop :=
  trimSpace s = s ∧ splitFirstEq s = some (entryPair s) ∧
    goodKey (entryPair s).1 = true

instance (s : Str) : Decidable (goodEntry s) := by
  unfold goodEntry
  infer_instance

theorem foldl_specStep_of_good (S : List Str) (m : Envmap)
    (hS : ∀ s ∈ S, goodEntry s)
    (hnd : S.Pairwise (fun a b => (entryPair a).1 ≠ (entryPair b).1))
    (hfresh : ∀ s ∈ S, mapFind m (entryPair s).1 = none) :
    S.foldl specStep m = m ++ S.map entryPair := by
  induction S generalizing m with
  | nil => simp
  | cons s rest ih =>
    obtain ⟨hts, hsp, hg⟩ := hS s (List.mem_cons_self _ _)
    simp only [List.foldl_cons, List.map_cons]
    have hstep : specStep m s = m ++ [entryPair s] := by
      unfold specStep
      rw [hts, hsp]
      show (if goodKey (entryPair s).1 = true
            then insertKV m (entryPair s).1 (entryPair s).2 else m)
          = m ++ [entryPair s]
      rw [if_pos hg]
      exact insertKV_of_find_none m _ _ (hfresh s (List.mem_cons_self _ _))
    rw [hstep,
      ih (m ++ [entryPair s])
        (fun t ht => hS t (List.mem_cons_of_mem _ ht))
        ((List.pairwise_cons.mp hnd).2)
        (fun t ht => by
          rw [mapFind_append, hfresh t (List.mem_cons_of_mem _ ht)]
          have hne := (List.pairwise_cons.mp hnd).1 t ht
          simp [mapFind, hne]),
      List.append_assoc]
    rfl

theorem fromSliceRef_of_good (S : List Str) (hS : ∀ s ∈ S, goodEntry s)
    (hnd : S.Pairwise (fun a b => (entryPair a).1 ≠ (entryPair b).1)) :
    fromSliceRef S = S.map entryPair := by
  have := foldl_specStep_of_good S [] hS hnd (fun s _ => rfl)
  simpa [fromSliceRef] using this

/-- C4: `Environ` of any valid store is sorted (by `≤` on full entry strings)
and enumerates exactly the store's entries rendered `"KEY=VALUE"`; and for a
slice of trimmed, well-formed `KEY=VALUE` entries with pairwise-distinct keys,
`FromSlice(S).Environ()` is exactly `S` sorted lexicographically. -/
theorem c4_environ_sorted_roundtrip (S : List Str) (m : Envmap)
    (hS : ∀ s ∈ S, goodEntry s)
    (hnd : S.Pairwise (fun a b => (entryPair a).1 ≠ (entryPair b).1)) :
    List.Sorted (· ≤ ·) (Environ (some ⟨some m⟩)) ∧
    (Environ (some ⟨some m⟩)).Perm (m.map joinKV) ∧
    Environ (some (FromSlice S)) = List.insertionSort (· ≤ ·) S := by
  refine ⟨List.sorted_insertionSort _ _, List.perm_insertionSort _ _, ?_⟩
  show (match envsOf (some (FromSlice S)) with
        | none => ([] : List Str)
        | some m => List.insertionSort (· ≤ ·) (m.map joinKV)) = _
  rw [show envsOf (some (FromSlice S)) = (FromSlice S).envs from rfl,
    fromSlice_envs S, fromSliceRef_of_good S hS hnd]
  show List.insertionSort (· ≤ ·) ((S.map entryPair).map joinKV) = _
  rw [List.map_map]
  congr 1
  have hid : ∀ s ∈ S, joinKV (entryPair s) = s := by
    intro s hs
    obtain ⟨hts, hsp, _⟩ := hS s hs
    have hsp' : splitFirstEq s = some ((entryPair s).1, (entryPair s).2) := by
      rw [hsp]
    exact splitFirstEq_join s (entryPair s).1 (entryPair s).2 hsp'
  calc S.map (joinKV ∘ entryPair) = S.map id := List.map_congr_left hid
    _ = S := List.map_id S

/-- Witness for C4 at a concrete well-formed slice and store. -/
theorem c4_environ_sorted_roundtrip_witness :
    List.Sorted (· ≤ ·)
      (Environ (some ⟨some [(gs "B", gs "2"), (gs "A", gs "1")]⟩)) ∧
    (Environ (some ⟨some [(gs "B", gs "2"), (gs "A", gs "1")]⟩)).Perm
      ([(gs "B", gs "2"), (gs "A", gs "1")].map joinKV) ∧
    Environ (some (FromSlice [gs "B=2", gs "A=1"]))
      = List.insertionSort (· ≤ ·) [gs "B=2", gs "A=1"] :=
  c4_environ_sorted_roundtrip [gs "B=2", gs "A=1"]
    [(gs "B", gs "2"), (gs "A", gs "1")] (by decide) (by decide)

/-- C7 counterexample: for a store with an absent backing map (which the claim
counts as null/absent), `With` does invoke the producer — the producer's error
comes back instead of the nil-environment error. -/
theorem c7_counterexample :
    With (some ⟨none⟩) (fun _ => .error "boom") = .error "boom" ∧
    With (some ⟨none⟩) (fun _ => .error "boom") ≠ .error "nil env" := by
  exact ⟨rfl, by decide⟩

/-- C7 as amended: only a nil store *pointer* short-circuits `With` (the
result then does not depend on the producer at all); for any non-nil pointer —
including one with an absent backing map — the producer runs, its error
propagates unchanged, and with an absent backing map a successful producer is
followed by a failing merge. -/
theorem c7_with_amended (fn g fh : Unit → Except String Store) (e : Env)
    (err : String) (n : Store) (hg : g () = .error err) (hh : fh () = .ok n) :
    With none fn = .error "nil env" ∧
    With (some e) g = .error err ∧
    With (some ⟨none⟩) fh = .error "cannot merge into nil env" := by
  refine ⟨rfl, ?_, ?_⟩
  · simp [With, hg]
  · simp [With, hh, Merge, envsOf]

/-- Witness for C7's amended statement at concrete producers. -/
theorem c7_with_amended_witness :
    With none (fun _ => .ok none) = .error "nil env" ∧
    With (some Zero) (fun _ => .error "boom") = .error "boom" ∧
    With (some ⟨none⟩) (fun _ => .ok (some Zero)) =
      .error "cannot merge into nil env" :=
  c7_with_amended (fun _ => .ok none) (fun _ => .error "boom")
    (fun _ => .ok (some Zero)) Zero "boom" (some Zero) rfl rfl

/-! ### C8 -/

/-- C8 counterexample: a stream whose content is not validly encoded text
(`0xFF 0xFE 0xFD` is invalid UTF-8) does *not* make `FromReader` fail — the
bytes are scanned into a separator-free token, dropped by the entry filter,
and an (empty) store is returned.  This matches the repository's own test
(`"buffer error"` case expects success), though not the doc comment. -/
theorem c8_counterexample :
    FromReader (some ⟨[255, 254, 253], none⟩) 59 = .ok ⟨some []⟩ := by
  decide

theorem maxRunAux_replicate (sep b : Nat) (hb : b ≠ sep) (n : Nat) :
    ∀ cur best, maxRunAux sep cur best (List.replicate n b)
      = max (cur + n) best := by
  induction n with
  | zero => intro cur best; simp [maxRunAux]
  | succ n ih =>
    intro cur best
    rw [List.replicate_succ]
    rw [show maxRunAux sep cur best (b :: List.replicate n b)
        = if b = sep then maxRunAux sep 0 (max cur best) (List.replicate n b)
          else maxRunAux sep (cur + 1) best (List.replicate n b) from rfl]
    rw [if_neg hb, ih]
    omega

theorem maxSepFreeRun_replicate (sep b : Nat) (hb : b ≠ sep) (n : Nat) :
    maxSepFreeRun sep (List.replicate n b) = n := by
  show maxRunAux sep 0 0 (List.replicate n b) = n
  rw [maxRunAux_replicate sep b hb n 0 0]
  omega

/-- C8 as amended: `FromReader` fails exactly on a nil reader (error
`"nil reader"`), on content holding a separator-free run of at least the
scanner's 64 KiB token limit (`bufio.ErrTooLong`), or on an underlying read
failure of the stream (that error is returned).  Malformed (invalid-encoding)
content within the token limit does *not* cause an error — its tokens are
simply fed through `FromSlice`'s filtering. -/
theorem c8_fromreader_amended (s t u : ByteStream) (sep : Nat) (e : String)
    (hsr : maxSepFreeRun sep s.content < maxScanTokenSize)
    (hse : s.readErr = some e)
    (htr : maxScanTokenSize ≤ maxSepFreeRun sep t.content)
    (hur : maxSepFreeRun sep u.content < maxScanTokenSize)
    (hue : u.readErr = none) :
    FromReader none sep = .error "nil reader" ∧
    FromReader (some s) sep = .error e ∧
    FromReader (some t) sep = .error "bufio.Scanner: token too long" ∧
    FromReader (some u) sep
      = .ok (FromSlice ((tokenize sep u.content).map decodeBytes)) ∧
    FromReader (some ⟨bytesOf "K1=V1; K2=V2;", none⟩) 59
      = .ok ⟨some [(gs "K1", gs "V1"), (gs "K2", gs "V2")]⟩ := by
  refine ⟨rfl, ?_, ?_, ?_, by decide⟩
  · simp [FromReader, Nat.not_le.mpr hsr, hse]
  · simp [FromReader, htr]
  · simp [FromReader, Nat.not_le.mpr hur, hue]

/-- Witness for C8's amended statement at concrete streams: a failing reader,
a 64 KiB separator-free content (`ErrTooLong`), and two well-formed ones. -/
theorem c8_fromreader_amended_witness :
    FromReader none 59 = .error "nil reader" ∧
    FromReader (some ⟨[65, 61, 66], some "read error"⟩) 59
      = .error "read error" ∧
    FromReader (some ⟨List.replicate 65536 65, none⟩) 59
      = .error "bufio.Scanner: token too long" ∧
    FromReader (some ⟨[65, 61, 66], none⟩) 59
      = .ok (FromSlice ((tokenize 59 [65, 61, 66]).map decodeBytes)) ∧
    FromReader (some ⟨bytesOf "K1=V1; K2=V2;", none⟩) 59
      = .ok ⟨some [(gs "K1", gs "V1"), (gs "K2", gs "V2")]⟩ :=
  c8_fromreader_amended ⟨[65, 61, 66], some "read error"⟩
    ⟨List.replicate 65536 65, none⟩ ⟨[65, 61, 66], none⟩ 59 "read error"
    (by decide) rfl
    (by show maxScanTokenSize ≤ maxSepFreeRun 59 (List.replicate 65536 65)
        rw [maxSepFreeRun_replicate 59 65 (by decide) 65536]
        decide)
    (by decide) rfl

/-! ### C5 and C10: the heap model -/

theorem hget_set_ne (hp : Heap) (i j : Nat) (x : Envmap) (hij : i ≠ j) :
    hget (hp.set i x) j = hget hp j := by
  simp [hget, List.getElem?_set, hij]

theorem setenvH_fst (hp : Heap) (r : Nat) (k v : Str) :
    (SetenvH hp (some ⟨some r⟩) k v).1
      = hp.set r (insertKV ((hget hp r).getD []) k v) := rfl

theorem fromMapH_some (hp : Heap) (r : Nat) :
    FromMapH hp (some r)
      = (hp.set r (((hget hp r).getD []).filter (fun kv => goodKey kv.1)),
         ⟨some r⟩) := rfl

theorem hget_set_eq (hp : Heap) (i : Nat) (x : Envmap) (hi : i < hp.length) :
    hget (hp.set i x) i = some x := by
  simp [hget, List.getElem?_set, hi]

theorem hget_append_lt (hp : Heap) (x : Envmap) (r : Nat)
    (hr : r < hp.length) : hget (hp ++ [x]) r = hget hp r := by
  simp [hget, List.getElem?_append, hr]

theorem hget_append_self (hp : Heap) (x : Envmap) :
    hget (hp ++ [x]) hp.length = some x := by
  simp [hget, List.getElem?_append]

/-- C5: `Merge` mutates neither input and returns fresh storage — after a
merge of two valid stores, both inputs' maps read back unchanged (as does
every other allocation), the result's reference is distinct from both, a
`Setenv` through the result leaves both inputs untouched, and a `Setenv`
through the base leaves the result untouched. -/
theorem c5_merge_fresh_storage (h : Heap) (ra rb : Nat) (k v : Str)
    (hra : ra < h.length) (hrb : rb < h.length) :
    (MergeH h (some ⟨some ra⟩) (some ⟨some rb⟩)).2 = .ok ⟨some h.length⟩ ∧
    h.length ≠ ra ∧ h.length ≠ rb ∧
    (∀ r, r < h.length →
      hget (MergeH h (some ⟨some ra⟩) (some ⟨some rb⟩)).1 r = hget h r) ∧
    hget (SetenvH (MergeH h (some ⟨some ra⟩) (some ⟨some rb⟩)).1
        (some ⟨some h.length⟩) k v).1 ra = hget h ra ∧
    hget (SetenvH (MergeH h (some ⟨some ra⟩) (some ⟨some rb⟩)).1
        (some ⟨some h.length⟩) k v).1 rb = hget h rb ∧
    hget (SetenvH (MergeH h (some ⟨some ra⟩) (some ⟨some rb⟩)).1
        (some ⟨some ra⟩) k v).1 h.length
      = hget (MergeH h (some ⟨some ra⟩) (some ⟨some rb⟩)).1 h.length := by
  have hne_ra : h.length ≠ ra := by omega
  have hne_rb : h.length ≠ rb := by omega
  have hm1 : (MergeH h (some ⟨some ra⟩) (some ⟨some rb⟩)).1
      = (h ++ [mergeMaps ((hget h ra).getD []) ((hget h rb).getD [])]).set
          h.length
          ((mergeMaps ((hget h ra).getD []) ((hget h rb).getD [])).filter
            (fun kv => goodKey kv.1)) := by
    show (FromMapH _ (some h.length)).1 = _
    rw [fromMapH_some, hget_append_self]
    rfl
  have hold : ∀ r, r < h.length →
      hget (MergeH h (some ⟨some ra⟩) (some ⟨some rb⟩)).1 r = hget h r := by
    intro r hrl
    rw [hm1, hget_set_ne _ _ _ _ (by omega), hget_append_lt _ _ _ hrl]
  refine ⟨rfl, hne_ra, hne_rb, hold, ?_, ?_, ?_⟩
  · rw [setenvH_fst, hget_set_ne _ _ _ _ hne_ra]
    exact hold ra hra
  · rw [setenvH_fst, hget_set_ne _ _ _ _ hne_rb]
    exact hold rb hrb
  · rw [setenvH_fst, hget_set_ne _ _ _ _ (show ra ≠ h.length by omega)]

/-- Witness for C5 on a concrete two-allocation heap. -/
theorem c5_merge_fresh_storage_witness :
    (MergeH [[(gs "A", gs "1")], [(gs "B", gs "2")]]
        (some ⟨some 0⟩) (some ⟨some 1⟩)).2 = .ok ⟨some 2⟩ ∧
    hget (MergeH [[(gs "A", gs "1")], [(gs "B", gs "2")]]
        (some ⟨some 0⟩) (some ⟨some 1⟩)).1 0
      = hget [[(gs "A", gs "1")], [(gs "B", gs "2")]] 0 ∧
    hget (SetenvH (MergeH [[(gs "A", gs "1")], [(gs "B", gs "2")]]
          (some ⟨some 0⟩) (some ⟨some 1⟩)).1
        (some ⟨some 2⟩) (gs "K") (gs "V")).1 0
      = hget [[(gs "A", gs "1")], [(gs "B", gs "2")]] 0 := by
  have hmain := c5_merge_fresh_storage [[(gs "A", gs "1")], [(gs "B", gs "2")]]
    0 1 (gs "K") (gs "V") (by decide) (by decide)
  exact ⟨hmain.1, hmain.2.2.2.1 0 (by decide), hmain.2.2.2.2.1⟩

/-- C10: `FromMapH` returns an `Env` aliased to the caller's map reference;
the rule-violating entries are deleted from that very map (a side effect the
caller observes through their own reference), other allocations are untouched,
and a later `Setenv` through the store is visible through the caller's
reference as well. -/
theorem c10_frommap_in_place (h : Heap) (r : Nat) (m : Envmap) (k v : Str)
    (hr : hget h r = some m) :
    (FromMapH h (some r)).2 = ⟨some r⟩ ∧
    hget (FromMapH h (some r)).1 r
      = some (m.filter (fun kv => goodKey kv.1)) ∧
    (∀ r', r' ≠ r → hget (FromMapH h (some r)).1 r' = hget h r') ∧
    hget (SetenvH (FromMapH h (some r)).1 (some (FromMapH h (some r)).2)
        k v).1 r
      = some (insertKV (m.filter (fun kv => goodKey kv.1)) k v) := by
  have hrlen : r < h.length := by
    by_contra hc
    rw [hget, List.getElem?_eq_none (by omega)] at hr
    exact Option.noConfusion hr
  have hfst : (FromMapH h (some r)).1
      = h.set r (m.filter (fun kv => goodKey kv.1)) := by
    rw [fromMapH_some, hr]
    rfl
  have hmid : hget (FromMapH h (some r)).1 r
      = some (m.filter (fun kv => goodKey kv.1)) := by
    rw [hfst]
    exact hget_set_eq h r _ hrlen
  refine ⟨rfl, hmid, ?_, ?_⟩
  · intro r' hr'
    rw [hfst, hget_set_ne _ _ _ _ (fun hc => hr' hc.symm)]
  · rw [show (FromMapH h (some r)).2 = (⟨some r⟩ : EnvH) from rfl,
      setenvH_fst, hmid]
    show hget ((FromMapH h (some r)).1.set r _) r = _
    rw [hfst]
    have : (h.set r (m.filter (fun kv => goodKey kv.1))).length = h.length :=
      List.length_set h r _
    rw [hget_set_eq _ r _ (by omega)]
    rfl

/-- Witness for C10 on a concrete heap holding one bad-keyed entry. -/
theorem c10_frommap_in_place_witness :
    (FromMapH [[(gs "=", gs "x"), (gs "A", gs "1")]] (some 0)).2
      = ⟨some 0⟩ ∧
    hget (FromMapH [[(gs "=", gs "x"), (gs "A", gs "1")]] (some 0)).1 0
      = some ([(gs "=", gs "x"), (gs "A", gs "1")].filter
          (fun kv => goodKey kv.1)) ∧
    hget (FromMapH [[(gs "=", gs "x"), (gs "A", gs "1")]] (some 0)).1 1
      = hget [[(gs "=", gs "x"), (gs "A", gs "1")]] 1 ∧
    hget (SetenvH (FromMapH [[(gs "=", gs "x"), (gs "A", gs "1")]]
          (some 0)).1
        (some (FromMapH [[(gs "=", gs "x"), (gs "A", gs "1")]] (some 0)).2)
        (gs "B") (gs "2")).1 0
      = some (insertKV ([(gs "=", gs "x"), (gs "A", gs "1")].filter
          (fun kv => goodKey kv.1)) (gs "B") (gs "2")) := by
  have hmain := c10_frommap_in_place [[(gs "=", gs "x"), (gs "A", gs "1")]]
    0 [(gs "=", gs "x"), (gs "A", gs "1")] (gs "B") (gs "2") (by decide)
  exact ⟨hmain.1, hmain.2.1, hmain.2.2.1 1 (by decide), hmain.2.2.2⟩

end Envy
